import Mathlib

/-!
Verification of the Ed_FAST timetable core.

The embedding covers two layers of the repository:

* the frontend timetable component
  (`edfast-frontend/src/components/TimetableManager.tsx`): the row
  conversion performed in `loadTimetableData`, the derived
  `availableCourses` list and statistics, the view filter
  `applyFilters`, and the state-level behaviour of `checkConflicts`;

* the backend timetable core (time-range parser, row normalizer,
  overlap detector, recommendation generator, schedule filter).  The
  backend source is not part of the repository snapshot (only its API
  documentation and its frontend callers are), so those components are
  modelled from the specification; each such definition is marked
  `Modelled from the spec:` in its doc comment.

JavaScript `a || b` on optional strings is embedded by `jsOr`:
`undefined` and `""` are the falsy string values, and the chain returns
the first truthy operand, else the last operand.
-/

namespace EdFast

/-- A raw uploaded row as the frontend receives it from the API: a
mapping with optional string values under the recognized key aliases
(`Course`/`course`/`course_name`, `Section`/`section`, `Day`/`day`,
`Time`/`time`, `Type`/`type`, `Class`/`room`/`location`,
`course_code`, `semester`).  Absent keys are `none`. -/
structure RawRow where
  Course : Option String
  course : Option String
  course_name : Option String
  «Section» : Option String
  «section» : Option String
  Day : Option String
  day : Option String
  Time : Option String
  time : Option String
  «Type» : Option String
  type : Option String
  «Class» : Option String
  room : Option String
  location : Option String
  course_code : Option String
  semester : Option Nat
deriving DecidableEq

/-- JavaScript truthiness for an optional string: `undefined` (`none`)
and the empty string are falsy. -/
def jsTruthy : Option String → Bool
  | none => false
  | some s => s ≠ ""

/-- JavaScript `a || b` on optional strings: the first operand when it
is truthy, otherwise the second operand. -/
def jsOr (a b : Option String) : Option String :=
  if jsTruthy a then a else b

/-- JavaScript `a || d` where the final default `d` is a plain string,
so the result is always a string. -/
def jsOrD (a : Option String) (d : String) : String :=
  if jsTruthy a then a.getD d else d

/-- The canonical timetable entry of the frontend
(`interface TimetableEntry` in `TimetableManager.tsx`).  `instructor`
is an optional field there (`instructor?: string`) and is kept
optional here. -/
structure TimetableEntry where
  id : String
  course : String
  «section» : String
  day : String
  time : String
  type : String
  room : String
  instructor : Option String
  course_code : Option String
  course_name : Option String
  semester : Option Nat
deriving DecidableEq

/-- One row of the conversion loop in `loadTimetableData`
(TimetableManager.tsx:213-225): each raw row is mapped to exactly one
`TimetableEntry` via the `||`-alias chains of the source.  The source
never sets `instructor`, so it stays `none`. -/
def convertEntry (i : Nat) (r : RawRow) : TimetableEntry :=
  { id := "entry_" ++ toString i
    course := jsOrD (jsOr (jsOr r.Course r.course) r.course_name) ""
    «section» := jsOrD (jsOr r.«Section» r.«section») ""
    day := jsOrD (jsOr r.Day r.day) ""
    time := jsOrD (jsOr r.Time r.time) ""
    type := jsOrD (jsOr r.«Type» r.type) "Theory"
    room := jsOrD (jsOr (jsOr r.«Class» r.room) r.location) ""
    instructor := none
    course_code := jsOr (jsOr r.course_code r.Course) r.course
    course_name := jsOr (jsOr r.course_name r.Course) r.course
    semester := r.semester }

/-- The array branch of `loadTimetableData`: `dataToProcess.forEach`
pushes one converted entry per raw row, indexed by position. -/
def loadEntries (rows : List RawRow) : List TimetableEntry :=
  rows.enum.map (fun p => convertEntry p.1 p.2)

/-- One step of JavaScript `new Set(...)` insertion order: append the
element unless it is already present. -/
def insertNew (seen : List String) (x : String) : List String :=
  if x ∈ seen then seen else seen ++ [x]

/-- `[...new Set(l)]`: deduplication keeping the first occurrence of
each value, in insertion order. -/
def jsSetList (l : List String) : List String :=
  l.foldl insertNew []

/-- `availableCourses` as computed after a successful load
(TimetableManager.tsx:254):
`[...new Set(allEntries.map(item => item.course))].filter(Boolean)`. -/
def availableCoursesOf (entries : List TimetableEntry) : List String :=
  (jsSetList (entries.map (fun e => e.course))).filter (fun s => decide (s ≠ ""))

/-- The statistics record of the frontend (`interface TimetableStats`). -/
structure TimetableStats where
  totalClasses : Nat
  uniqueCourses : Nat
  theoryClasses : Nat
  labClasses : Nat
  uniqueRooms : Nat
  daysCovered : Nat
deriving DecidableEq

/-- The statistics computed after a load (TimetableManager.tsx:258-265).
`uniqueCourses` is the length of the same deduplicated, `filter(Boolean)`ed
course list that is stored in `availableCourses`. -/
def statsOf (entries : List TimetableEntry) : TimetableStats :=
  { totalClasses := entries.length
    uniqueCourses := (availableCoursesOf entries).length
    theoryClasses := (entries.filter (fun e => decide (e.type = "Theory"))).length
    labClasses := (entries.filter (fun e => decide (e.type = "Lab"))).length
    uniqueRooms := (jsSetList (entries.map (fun e => e.room))).length
    daysCovered := (jsSetList (entries.map (fun e => e.day))).length }

/-- List-of-characters test: `p` starts the list `s`. -/
def chPre : List Char → List Char → Bool
  | [], _ => true
  | _ :: _, [] => false
  | a :: as, b :: bs => a == b && chPre as bs

/-- List-of-characters test: `p` occurs contiguously inside `s`. -/
def chSub (p : List Char) : List Char → Bool
  | [] => chPre p []
  | l@(_ :: t) => chPre p l || chSub p t

/-- JavaScript `haystack.includes(needle)` on strings. -/
def strIncludes (haystack needle : String) : Bool :=
  chSub needle.toList haystack.toList

/-- The filter criteria state of the frontend (`filters` in
`TimetableManager.tsx`); `department` exists in the state but is never
used by `applyFilters`. -/
structure Filters where
  course : String
  day : String
  type : String
  room : String
  department : String
deriving DecidableEq

/-- The filter state with all criteria empty (the initial state and the
state after `clearFilters`). -/
def emptyFilters : Filters :=
  { course := "", day := "", type := "", room := "", department := "" }

/-- The view filter `applyFilters` (TimetableManager.tsx:279-303) as a
function of the data and criteria: each truthy criterion narrows the
list, course and room by case-insensitive substring, day and type by
equality.  Empty criteria leave the list unchanged. -/
def applyFiltersList (data : List TimetableEntry) (f : Filters) : List TimetableEntry :=
  let l1 := if f.course ≠ "" then data.filter (fun e => strIncludes e.course.toLower f.course.toLower) else data
  let l2 := if f.day ≠ "" then l1.filter (fun e => decide (e.day = f.day)) else l1
  let l3 := if f.type ≠ "" then l2.filter (fun e => decide (e.type = f.type)) else l2
  if f.room ≠ "" then l3.filter (fun e => strIncludes e.room.toLower f.room.toLower) else l3

/-- The conflict record shape the frontend receives from the backend
(`interface ConflictInfo`). -/
structure ConflictInfo where
  day : String
  course1 : String
  section1 : String
  time1 : String
  room1 : String
  course2 : String
  section2 : String
  time2 : String
  room2 : String
  type : String
deriving DecidableEq

/-- The component state of `TimetableManager` restricted to the fields
read or written by the embedded operations (`timetableData`,
`filteredData`, `filters`, `selectedCourses`, `availableCourses`,
`conflicts`, `currentTimetableId`, `error`). -/
structure ManagerState where
  timetableData : List TimetableEntry
  filteredData : List TimetableEntry
  filters : Filters
  selectedCourses : List String
  availableCourses : List String
  conflicts : List ConflictInfo
  currentTimetableId : Option String
  error : Option String
deriving DecidableEq

/-- `applyFilters` as a state transition: it recomputes `filteredData`
from `timetableData` and `filters` and touches nothing else. -/
def applyFiltersState (s : ManagerState) : ManagerState :=
  { s with filteredData := applyFiltersList s.timetableData s.filters }

/-- `checkConflicts` (TimetableManager.tsx:353-375) as a state
transition.  With no current timetable id or an empty course
selection it sets the error message and returns without calling the
backend; otherwise it stores the backend's conflict list.  The backend
call is abstracted as the pure function `backend` applied to the
client's copy of the timetable and the selection. -/
def checkConflictsState (backend : List TimetableEntry → List String → List ConflictInfo)
    (s : ManagerState) : ManagerState :=
  if s.currentTimetableId.isNone || s.selectedCourses.isEmpty then
    { s with error := some "Please select courses to check for conflicts" }
  else
    { s with conflicts := backend s.timetableData s.selectedCourses }

/-- The distinct values of a list in order of first occurrence; this is
the specification-side description of `availableCourses`
("distinct non-empty course values ... in order of first occurrence"),
to be compared with the source-side `jsSetList`. -/
def dedupKeepFirst : List String → List String
  | [] => []
  | x :: xs => x :: dedupKeepFirst (xs.filter (fun y => decide (y ≠ x)))
termination_by l => l.length
decreasing_by
  simp only [List.length_cons]
  exact Nat.lt_succ_of_le (List.length_filter_le _ _)

/-- The error taxonomy of the time parser.  Modelled from the spec:
the backend Time Interval Parser is not in the repository snapshot. -/
inductive TimeError where
  | MalformedTimeRange
deriving DecidableEq

/-- Numeric value of a two-digit string. -/
def digit2 (a b : Char) : Nat :=
  10 * (a.toNat - 48) + (b.toNat - 48)

/-- The `HH:MM-HH:MM` (24h) pattern match: eleven characters, digits
and separators in the right places, hours below 24 and minutes below
60; yields the two minute-since-midnight values.  Modelled from the
spec: the backend Time Interval Parser is not in the repository
snapshot. -/
def hhmmParse (s : String) : Option (Nat × Nat) :=
  match s.toList with
  | [h1, h2, c1, m1, m2, dash, h3, h4, c2, m3, m4] =>
    if h1.isDigit && h2.isDigit && c1 == ':' && m1.isDigit && m2.isDigit &&
       dash == '-' && h3.isDigit && h4.isDigit && c2 == ':' && m3.isDigit && m4.isDigit then
      let a := 60 * digit2 h1 h2 + digit2 m1 m2
      let b := 60 * digit2 h3 h4 + digit2 m3 m4
      if digit2 h1 h2 ≤ 23 && digit2 m1 m2 ≤ 59 && digit2 h3 h4 ≤ 23 && digit2 m3 m4 ≤ 59 then
        some (a, b)
      else none
    else none
  | _ => none

/-- Modelled from the spec: the backend Time Interval Parser
(spec §4.1) is not in the repository snapshot.  It returns the
`(start_minutes, end_minutes)` pair when the string matches
`HH:MM-HH:MM` with `start < end`, and fails with `MalformedTimeRange`
otherwise. -/
def parseTimeRange (s : String) : Except TimeError (Nat × Nat) :=
  match hhmmParse s with
  | some (a, b) => if a < b then Except.ok (a, b) else Except.error TimeError.MalformedTimeRange
  | none => Except.error TimeError.MalformedTimeRange

/-- The canonical entry of the backend core (spec §3): course code,
section, day, parsed start/end minutes, room, type. -/
structure SpecEntry where
  course_code : String
  «section» : String
  day : String
  startMin : Nat
  endMin : Nat
  room : String
  type : String
deriving DecidableEq

/-- The warning kinds of the normalizer (spec §7). -/
inductive WarnKind where
  | MalformedTimeRange
  | MissingRequiredField
deriving DecidableEq

/-- A recorded warning: the index of the skipped row and the reason. -/
structure Warning where
  rowIndex : Nat
  kind : WarnKind
deriving DecidableEq

/-- Modelled from the spec: the backend Timetable Entry Normalizer
(spec §4.2) is not in the repository snapshot.  Alias resolution per
field follows the source's chains; a row with empty required fields
(course code, day) is skipped with `MissingRequiredField`, a row whose
time range does not parse is skipped with `MalformedTimeRange`,
otherwise the row yields one entry. -/
def normalizeRow (r : RawRow) : Except WarnKind SpecEntry :=
  if jsOrD (jsOr (jsOr r.Course r.course) r.course_name) "" = "" ∨
      jsOrD (jsOr r.Day r.day) "" = "" then
    Except.error WarnKind.MissingRequiredField
  else
    match parseTimeRange (jsOrD (jsOr r.Time r.time) "") with
    | Except.error _ => Except.error WarnKind.MalformedTimeRange
    | Except.ok (a, b) =>
      Except.ok
        { course_code := jsOrD (jsOr (jsOr r.Course r.course) r.course_name) ""
          «section» := jsOrD (jsOr r.«Section» r.«section») ""
          day := jsOrD (jsOr r.Day r.day) ""
          startMin := a
          endMin := b
          room := jsOrD (jsOr (jsOr r.«Class» r.room) r.location) ""
          type := jsOrD (jsOr r.«Type» r.type) "Theory" }

/-- Row-by-row normalization from row index `i` on: a failing row
contributes a warning carrying its index and processing continues with
the remaining rows. -/
def normalizeGo (i : Nat) : List RawRow → List SpecEntry × List Warning
  | [] => ([], [])
  | r :: rs =>
    let rest := normalizeGo (i + 1) rs
    match normalizeRow r with
    | Except.ok e => (e :: rest.1, rest.2)
    | Except.error k => (rest.1, ⟨i, k⟩ :: rest.2)

/-- Modelled from the spec: `normalize(rawRows, sourceId) ->
(entries, warnings)` (spec §6), the backend normalizer pass over all
rows. -/
def normalize (rows : List RawRow) : List SpecEntry × List Warning :=
  normalizeGo 0 rows

/-- Half-open interval intersection with same-day and
distinct-course-code requirements on an ordered pair of entries — the
conflict condition of the Overlap Detector (spec §3, §4.3). -/
def condPair (p : SpecEntry × SpecEntry) : Prop :=
  p.1.day = p.2.day ∧ p.1.startMin < p.2.endMin ∧ p.2.startMin < p.1.endMin ∧
    p.1.course_code ≠ p.2.course_code

instance : DecidablePred condPair := fun p => by
  unfold condPair
  infer_instance

/-- All ordered pairs of positions `i < j` of a list. -/
def allPairs {α : Type} : List α → List (α × α)
  | [] => []
  | x :: xs => xs.map (fun y => (x, y)) ++ allPairs xs

/-- The sort order of the Overlap Detector: by start minute, ties
broken lexically by course code (spec §4.3). -/
def entryLE (a b : SpecEntry) : Prop :=
  a.startMin < b.startMin ∨ (a.startMin = b.startMin ∧ a.course_code ≤ b.course_code)

instance : DecidableRel entryLE := fun a b => by
  unfold entryLE
  infer_instance

/-- Restriction of a timetable set to the selected course codes
(spec §4.3: "restrict to entries whose course_code is in the selected
set"). -/
def selEntries (entries : List SpecEntry) (sel : List String) : List SpecEntry :=
  entries.filter (fun e => decide (e.course_code ∈ sel))

/-- A detected conflict (spec §3): the shared day and the two entries. -/
structure Conflict where
  day : String
  entry_a : SpecEntry
  entry_b : SpecEntry
deriving DecidableEq

/-- Modelled from the spec: `findConflicts(entries, selectedCourses) ->
conflicts` (spec §4.3, §6), the backend Overlap Detector, which is not
in the repository snapshot.  Entries are restricted to the selection,
sorted by start minute with course-code tie-break, and every ordered
pair of positions whose entries share a day, whose half-open intervals
intersect and whose course codes differ is reported once.  (The spec
sweeps inside per-day groups; taking all pairs and requiring equal
days reports the same pairs.) -/
def findConflicts (entries : List SpecEntry) (sel : List String) : List Conflict :=
  ((allPairs (List.insertionSort entryLE (selEntries entries sel))).filter
      (fun p => decide (condPair p))).map (fun p => ⟨p.1.day, p.1, p.2⟩)

/-- A conflict with the orientation of its two entries forgotten: the
day together with the unordered pair. -/
def canonConflict (c : Conflict) : String × Multiset SpecEntry :=
  (c.day, {c.entry_a, c.entry_b})

/-- A recommendation (spec §3): the conflict it answers and the
candidate substitute sections, possibly empty. -/
structure Recommendation where
  conflict : Conflict
  alternative_sections : List SpecEntry
deriving DecidableEq

/-- Whether candidate entry `e` avoids every currently-selected entry
other than the conflicting entry `side` itself (spec §4.4). -/
def avoidsOthers (allEntries : List SpecEntry) (sel : List String) (side e : SpecEntry) : Bool :=
  (allEntries.filter (fun o => decide (o.course_code ∈ sel) && decide (o ≠ side))).all
    (fun o => !(decide (e.day = o.day) && decide (e.startMin < o.endMin) && decide (o.startMin < e.endMin)))

/-- The alternative sections for one side of a conflict: entries of the
same course code but a different section that avoid every other
selected entry (spec §4.4). -/
def altsFor (side : SpecEntry) (allEntries : List SpecEntry) (sel : List String) : List SpecEntry :=
  (allEntries.filter (fun e =>
      decide (e.course_code = side.course_code) && decide (e.«section» ≠ side.«section»))).filter
    (avoidsOthers allEntries sel side)

/-- Modelled from the spec: `recommend(conflict, allEntries,
selectedCourses) -> recommendation` (spec §4.4, §6), the backend
Recommendation Generator, which is not in the repository snapshot.  It
always returns a `Recommendation` record for the given conflict; when
neither side has a usable alternative the list is empty. -/
def recommend (c : Conflict) (allEntries : List SpecEntry) (sel : List String) : Recommendation :=
  ⟨c, altsFor c.entry_a allEntries sel ++ altsFor c.entry_b allEntries sel⟩

/-- Modelled from the spec: `filter(entries, selectedCourses,
selectedDepartments) -> entries` (spec §4.5, §6), the backend Schedule
Filter, which is not in the repository snapshot.  Entries carry no
department attribute, so the department list is ignored; the result is
the subset whose course code is selected, in original order. -/
def scheduleFilter (entries : List SpecEntry) (selCourses : List String)
    (_selDepartments : List String) : List SpecEntry :=
  entries.filter (fun e => decide (e.course_code ∈ selCourses))

/-- A raw row with only course/day/time keys set, used for concrete
inputs. -/
def mkRow (c d t : Option String) : RawRow :=
  { Course := c, course := none, course_name := none, «Section» := none, «section» := none
    Day := d, day := none, Time := t, time := none, «Type» := none, type := none
    «Class» := none, room := none, location := none, course_code := none, semester := none }

/-- The spec's worked example, first entry: CS101 section A, Monday
09:00-10:30, i.e. minutes [540, 630). -/
def eCS101 : SpecEntry :=
  { course_code := "CS101", «section» := "A", day := "Mon", startMin := 540, endMin := 630
    room := "R1", type := "Theory" }

/-- The spec's worked example, second entry: MATH201 section B, Monday
10:00-11:00, i.e. minutes [600, 660). -/
def eMATH201 : SpecEntry :=
  { course_code := "MATH201", «section» := "B", day := "Mon", startMin := 600, endMin := 660
    room := "R2", type := "Theory" }

/-- A concrete frontend entry used by counterexamples. -/
def e0 : TimetableEntry :=
  { id := "entry_0", course := "CS2001", «section» := "A", day := "Monday", time := "09:00-10:30"
    type := "Theory", room := "CS-101", instructor := none, course_code := some "CS2001"
    course_name := some "Data Structures", semester := some 2 }

/-- A concrete component state with a loaded timetable and an empty
course selection. -/
def s3 : ManagerState :=
  { timetableData := [e0], filteredData := [e0], filters := emptyFilters
    selectedCourses := [], availableCourses := ["CS2001"], conflicts := []
    currentTimetableId := some "t1", error := none }

/-- A raw row with every key absent (all fields falsy). -/
def emptyRawRow : RawRow :=
  mkRow none none none

/-- A raw row whose three course aliases all carry the same value and
which has no separate `course_code` key. -/
def rowAliases : RawRow :=
  { Course := some "CS101", course := some "CS101", course_name := some "CS101"
    «Section» := some "A", «section» := none, Day := some "Mon", day := none
    Time := some "09:00-10:30", time := none, «Type» := none, type := none
    «Class» := none, room := none, location := none, course_code := none, semester := none }

/-- A well-formed raw row for the normalizer. -/
def rowGood : RawRow :=
  mkRow (some "CS101") (some "Mon") (some "09:00-10:30")

/-- The spec's malformed-time example row: time `9-10:30`. -/
def rowBad : RawRow :=
  mkRow (some "MATH201") (some "Mon") (some "9-10:30")

/-- A second well-formed raw row for the normalizer. -/
def rowGood2 : RawRow :=
  mkRow (some "PHY101") (some "Tue") (some "10:00-11:00")

/-- Both components of a pair produced by `allPairs` are elements of
the list. -/
theorem allPairs_mem {α : Type} {l : List α} {p : α × α} (h : p ∈ allPairs l) :
    p.1 ∈ l ∧ p.2 ∈ l := by
  induction l with
  | nil => simp [allPairs] at h
  | cons x xs ih =>
    simp only [allPairs, List.mem_append, List.mem_map] at h
    rcases h with ⟨y, hy, hpy⟩ | h
    · cases hpy
      exact ⟨List.mem_cons_self _ _, List.mem_cons_of_mem _ hy⟩
    · rcases ih h with ⟨h1, h2⟩
      exact ⟨List.mem_cons_of_mem _ h1, List.mem_cons_of_mem _ h2⟩

/-- Two distinct elements of a list form a pair in `allPairs` in one
orientation or the other. -/
theorem mem_allPairs_of_mem {α : Type} {l : List α} {a b : α}
    (ha : a ∈ l) (hb : b ∈ l) (hab : a ≠ b) :
    (a, b) ∈ allPairs l ∨ (b, a) ∈ allPairs l := by
  induction l with
  | nil => simp at ha
  | cons x xs ih =>
    rcases List.mem_cons.mp ha with rfl | ha'
    · have hb' : b ∈ xs := by
        rcases List.mem_cons.mp hb with rfl | hb'
        · exact absurd rfl hab
        · exact hb'
      left
      simp only [allPairs, List.mem_append, List.mem_map]
      exact Or.inl ⟨b, hb', rfl⟩
    · rcases List.mem_cons.mp hb with rfl | hb'
      · right
        simp only [allPairs, List.mem_append, List.mem_map]
        exact Or.inl ⟨a, ha', rfl⟩
      · rcases ih ha' hb' with h | h
        · left
          simp only [allPairs, List.mem_append]
          exact Or.inr h
        · right
          simp only [allPairs, List.mem_append]
          exact Or.inr h

/-- On a duplicate-free list, `allPairs` never contains both
orientations of a pair. -/
theorem allPairs_not_both {α : Type} {l : List α} {a b : α} (hnd : l.Nodup)
    (h1 : (a, b) ∈ allPairs l) (h2 : (b, a) ∈ allPairs l) : False := by
  induction l with
  | nil => simp [allPairs] at h1
  | cons x xs ih =>
    rcases List.nodup_cons.mp hnd with ⟨hx, hxs⟩
    simp only [allPairs, List.mem_append, List.mem_map, Prod.mk.injEq] at h1 h2
    rcases h1 with ⟨y, hy, hxa, hyb⟩ | h1
    · rcases h2 with ⟨z, hz, hxb, hza⟩ | h2
      · refine hx ?_
        rw [← hxa] at hza
        rw [hza] at hz
        exact hz
      · refine hx ?_
        rw [hxa]
        exact (allPairs_mem h2).2
    · rcases h2 with ⟨z, hz, hxb, hza⟩ | h2
      · refine hx ?_
        rw [hxb]
        exact (allPairs_mem h1).2
      · exact ih hxs h1 h2

/-- `allPairs` of a duplicate-free list is duplicate-free. -/
theorem allPairs_nodup {α : Type} {l : List α} (hnd : l.Nodup) : (allPairs l).Nodup := by
  induction l with
  | nil => simp [allPairs]
  | cons x xs ih =>
    rcases List.nodup_cons.mp hnd with ⟨hx, hxs⟩
    simp only [allPairs]
    refine List.Nodup.append ?_ (ih hxs) ?_
    · exact hxs.map (fun y z h => (Prod.mk.injEq _ _ _ _ ▸ h).2)
    · intro p hp hp'
      rcases List.mem_map.mp hp with ⟨y, _, rfl⟩
      exact hx (allPairs_mem hp').1

/-- Filtering after mapping is mapping after filtering the composed
predicate. -/
theorem filter_map_eq {α β : Type} (f : α → β) (p : β → Bool) (l : List α) :
    (l.map f).filter p = (l.filter (fun a => p (f a))).map f := by
  simp [List.filter_map, Function.comp_def]

/-- The conflict condition is symmetric in the two entries. -/
theorem condPair_symm (a b : SpecEntry) : condPair (a, b) ↔ condPair (b, a) := by
  unfold condPair
  constructor
  · rintro ⟨h1, h2, h3, h4⟩
    exact ⟨h1.symm, h3, h2, fun h => h4 h.symm⟩
  · rintro ⟨h1, h2, h3, h4⟩
    exact ⟨h1.symm, h3, h2, fun h => h4 h.symm⟩

/-- The unordered projection used for determinism statements is
symmetric on pairs satisfying the conflict condition. -/
theorem canon_symm {a b : SpecEntry} (h : condPair (a, b)) :
    (a.day, ({a, b} : Multiset SpecEntry)) = (b.day, ({b, a} : Multiset SpecEntry)) := by
  rcases h with ⟨h1, -⟩
  rw [h1]
  congr 1
  rw [Multiset.pair_comm]

/-- Membership in the selection-restricted entry list. -/
theorem mem_selEntries {entries : List SpecEntry} {sel : List String} {e : SpecEntry} :
    e ∈ selEntries entries sel ↔ e ∈ entries ∧ e.course_code ∈ sel := by
  simp [selEntries, List.mem_filter]

/-- The list of unordered images of condition-satisfying pairs is
permutation-invariant in the underlying list, for a symmetric condition
and a projection symmetric on condition-satisfying pairs. -/
theorem perm_allPairs_filter_map {α β : Type} (cond : α × α → Bool) (g : α × α → β)
    (hc : ∀ a b, cond (a, b) = cond (b, a))
    (hg : ∀ a b, cond (a, b) = true → g (a, b) = g (b, a))
    {l l' : List α} (h : List.Perm l l') :
    List.Perm (((allPairs l).filter cond).map g) (((allPairs l').filter cond).map g) := by
  induction h with
  | nil => exact List.Perm.refl _
  | cons x h ih =>
    simp only [allPairs, List.filter_append, List.map_append]
    refine List.Perm.append ?_ ih
    rw [filter_map_eq, List.map_map, filter_map_eq, List.map_map]
    exact (h.filter _).map _
  | swap x y t =>
    have hyx : cond (y, x) = cond (x, y) := hc y x
    have tailperm :
        List.Perm
          (((t.map (fun z => (y, z)) ++ (t.map (fun z => (x, z)) ++ allPairs t)).filter cond).map g)
          (((t.map (fun z => (x, z)) ++ (t.map (fun z => (y, z)) ++ allPairs t)).filter cond).map g) := by
      simp only [List.filter_append, List.map_append]
      rw [← List.append_assoc, ← List.append_assoc]
      exact List.Perm.append_right _ List.perm_append_comm
    have e1 : allPairs (y :: x :: t) =
        (y, x) :: (t.map (fun z => (y, z)) ++ (t.map (fun z => (x, z)) ++ allPairs t)) := by
      simp [allPairs]
    have e2 : allPairs (x :: y :: t) =
        (x, y) :: (t.map (fun z => (x, z)) ++ (t.map (fun z => (y, z)) ++ allPairs t)) := by
      simp [allPairs]
    rw [e1, e2, List.filter_cons, List.filter_cons, hyx]
    by_cases hxy : cond (x, y) = true
    · rw [if_pos hxy, if_pos hxy]
      simp only [List.map_cons]
      rw [← hg x y hxy]
      exact tailperm.cons _
    · rw [if_neg hxy, if_neg hxy]
      exact tailperm
  | trans h1 h2 ih1 ih2 => exact ih1.trans ih2

/-- Unfolding membership in the conflict list of the Overlap
Detector. -/
theorem mem_findConflicts {entries : List SpecEntry} {sel : List String} {c : Conflict} :
    c ∈ findConflicts entries sel ↔
      ∃ p : SpecEntry × SpecEntry,
        p ∈ allPairs (List.insertionSort entryLE (selEntries entries sel)) ∧
        condPair p ∧ c = Conflict.mk p.1.day p.1 p.2 := by
  constructor
  · intro h
    rcases List.mem_map.mp h with ⟨p, hp, rfl⟩
    rcases List.mem_filter.mp hp with ⟨hp1, hp2⟩
    exact ⟨p, hp1, of_decide_eq_true hp2, rfl⟩
  · rintro ⟨p, hp1, hp2, rfl⟩
    exact List.mem_map.mpr ⟨p, List.mem_filter.mpr ⟨hp1, decide_eq_true hp2⟩, rfl⟩

/-- Membership in the sorted selection-restricted list. -/
theorem mem_sortedSel {entries : List SpecEntry} {sel : List String} {e : SpecEntry} :
    e ∈ List.insertionSort entryLE (selEntries entries sel) ↔
      e ∈ entries ∧ e.course_code ∈ sel := by
  rw [(List.perm_insertionSort entryLE (selEntries entries sel)).mem_iff]
  exact mem_selEntries

/-- The conflict constructor used by the Overlap Detector is injective
in the underlying pair. -/
theorem conflictOfPair_inj :
    Function.Injective (fun p : SpecEntry × SpecEntry => Conflict.mk p.1.day p.1 p.2) := by
  intro p q h
  simp only [Conflict.mk.injEq] at h
  exact Prod.ext h.2.1 h.2.2

/-- C1: for entries of the timetable set, `findConflicts` reports a
Conflict containing the pair (in one orientation) iff both course
codes are selected, the days are equal, the half-open minute intervals
intersect and the course codes differ; moreover every reported
Conflict consists of two entries of the set whose course codes are
selected, so entries of unselected courses never appear in any
Conflict. -/
theorem c1_conflict_iff (entries : List SpecEntry) (sel : List String) (a b : SpecEntry)
    (ha : a ∈ entries) (hb : b ∈ entries) :
    ((∃ c ∈ findConflicts entries sel,
        (c.entry_a = a ∧ c.entry_b = b) ∨ (c.entry_a = b ∧ c.entry_b = a)) ↔
      (a.course_code ∈ sel ∧ b.course_code ∈ sel ∧ a.day = b.day ∧
        a.startMin < b.endMin ∧ b.startMin < a.endMin ∧ a.course_code ≠ b.course_code)) ∧
    (∀ c ∈ findConflicts entries sel,
      c.entry_a.course_code ∈ sel ∧ c.entry_b.course_code ∈ sel ∧
      c.entry_a ∈ entries ∧ c.entry_b ∈ entries) := by
  constructor
  · constructor
    · rintro ⟨c, hc, hor⟩
      rcases mem_findConflicts.mp hc with ⟨p, hp, hcond, rfl⟩
      have hmem := allPairs_mem hp
      have h1 := mem_sortedSel.mp hmem.1
      have h2 := mem_sortedSel.mp hmem.2
      rcases hcond with ⟨hd, ho1, ho2, hcc⟩
      rcases hor with ⟨hca, hcb⟩ | ⟨hca, hcb⟩
      · have hpa : p.1 = a := hca
        have hpb : p.2 = b := hcb
        simp only [hpa, hpb] at hd ho1 ho2 hcc h1 h2
        exact ⟨h1.2, h2.2, hd, ho1, ho2, hcc⟩
      · have hpa : p.1 = b := hca
        have hpb : p.2 = a := hcb
        simp only [hpa, hpb] at hd ho1 ho2 hcc h1 h2
        exact ⟨h2.2, h1.2, hd.symm, ho2, ho1, fun h => hcc h.symm⟩
    · rintro ⟨hs1, hs2, hd, ho1, ho2, hcc⟩
      have hab : a ≠ b := fun h => hcc (by rw [h])
      have ha' : a ∈ List.insertionSort entryLE (selEntries entries sel) :=
        mem_sortedSel.mpr ⟨ha, hs1⟩
      have hb' : b ∈ List.insertionSort entryLE (selEntries entries sel) :=
        mem_sortedSel.mpr ⟨hb, hs2⟩
      rcases mem_allPairs_of_mem ha' hb' hab with h | h
      · exact ⟨Conflict.mk a.day a b,
          mem_findConflicts.mpr ⟨(a, b), h, ⟨hd, ho1, ho2, hcc⟩, rfl⟩, Or.inl ⟨rfl, rfl⟩⟩
      · exact ⟨Conflict.mk b.day b a,
          mem_findConflicts.mpr ⟨(b, a), h, ⟨hd.symm, ho2, ho1, fun hh => hcc hh.symm⟩, rfl⟩,
          Or.inr ⟨rfl, rfl⟩⟩
  · intro c hc
    rcases mem_findConflicts.mp hc with ⟨p, hp, hcond, rfl⟩
    have hmem := allPairs_mem hp
    have h1 := mem_sortedSel.mp hmem.1
    have h2 := mem_sortedSel.mp hmem.2
    exact ⟨h1.2, h2.2, h1.1, h2.1⟩

/-- C1 at the spec's worked example: CS101/A Mon [540,630) and
MATH201/B Mon [600,660) with both courses selected. -/
theorem c1_conflict_iff_witness :
    ((∃ c ∈ findConflicts [eCS101, eMATH201] ["CS101", "MATH201"],
        (c.entry_a = eCS101 ∧ c.entry_b = eMATH201) ∨
          (c.entry_a = eMATH201 ∧ c.entry_b = eCS101)) ↔
      (eCS101.course_code ∈ ["CS101", "MATH201"] ∧
        eMATH201.course_code ∈ ["CS101", "MATH201"] ∧ eCS101.day = eMATH201.day ∧
        eCS101.startMin < eMATH201.endMin ∧ eMATH201.startMin < eCS101.endMin ∧
        eCS101.course_code ≠ eMATH201.course_code)) ∧
    (∀ c ∈ findConflicts [eCS101, eMATH201] ["CS101", "MATH201"],
      c.entry_a.course_code ∈ ["CS101", "MATH201"] ∧
      c.entry_b.course_code ∈ ["CS101", "MATH201"] ∧
      c.entry_a ∈ [eCS101, eMATH201] ∧ c.entry_b ∈ [eCS101, eMATH201]) :=
  c1_conflict_iff [eCS101, eMATH201] ["CS101", "MATH201"] eCS101 eMATH201
    (by decide) (by decide)

/-- C2: on a duplicate-free timetable set the conflict list is
duplicate-free, contains each conflicting unordered pair in at least
one orientation and never in both, and as a collection of unordered
conflicts it is invariant under permutation of the input entry
order. -/
theorem c2_unordered_once_perm (entries entries' : List SpecEntry) (sel : List String)
    (hnd : entries.Nodup) (hperm : List.Perm entries entries') :
    (findConflicts entries sel).Nodup ∧
    (∀ a b : SpecEntry, a ∈ entries → b ∈ entries → a.course_code ∈ sel →
      b.course_code ∈ sel → condPair (a, b) →
      (Conflict.mk a.day a b ∈ findConflicts entries sel ∨
        Conflict.mk b.day b a ∈ findConflicts entries sel)) ∧
    (∀ a b : SpecEntry,
      ¬(Conflict.mk a.day a b ∈ findConflicts entries sel ∧
        Conflict.mk b.day b a ∈ findConflicts entries sel)) ∧
    List.Perm ((findConflicts entries sel).map canonConflict)
      ((findConflicts entries' sel).map canonConflict) := by
  have hnd0 : (selEntries entries sel).Nodup := hnd.filter _
  have hnds : (List.insertionSort entryLE (selEntries entries sel)).Nodup :=
    ((List.perm_insertionSort entryLE (selEntries entries sel)).nodup_iff).mpr hnd0
  refine ⟨?_, ?_, ?_, ?_⟩
  · exact (((allPairs_nodup hnds).filter _).map conflictOfPair_inj)
  · intro a b ha hb hs1 hs2 hcond
    have hab : a ≠ b := by
      intro h
      exact hcond.2.2.2 (by rw [h])
    have ha' : a ∈ List.insertionSort entryLE (selEntries entries sel) :=
      mem_sortedSel.mpr ⟨ha, hs1⟩
    have hb' : b ∈ List.insertionSort entryLE (selEntries entries sel) :=
      mem_sortedSel.mpr ⟨hb, hs2⟩
    rcases mem_allPairs_of_mem ha' hb' hab with h | h
    · exact Or.inl (mem_findConflicts.mpr ⟨(a, b), h, hcond, rfl⟩)
    · exact Or.inr (mem_findConflicts.mpr ⟨(b, a), h, (condPair_symm a b).mp hcond, rfl⟩)
  · rintro a b ⟨hab, hba⟩
    rcases mem_findConflicts.mp hab with ⟨p, hp, -, hpc⟩
    rcases mem_findConflicts.mp hba with ⟨q, hq, -, hqc⟩
    have hp' : p = (a, b) := by
      simp only [Conflict.mk.injEq] at hpc
      exact Prod.ext hpc.2.1.symm hpc.2.2.symm
    have hq' : q = (b, a) := by
      simp only [Conflict.mk.injEq] at hqc
      exact Prod.ext hqc.2.1.symm hqc.2.2.symm
    rw [hp'] at hp
    rw [hq'] at hq
    exact allPairs_not_both hnds hp hq
  · have hsel : List.Perm (selEntries entries sel) (selEntries entries' sel) := hperm.filter _
    have hs : List.Perm (List.insertionSort entryLE (selEntries entries sel))
        (List.insertionSort entryLE (selEntries entries' sel)) :=
      (List.perm_insertionSort entryLE (selEntries entries sel)).trans
        (hsel.trans (List.perm_insertionSort entryLE (selEntries entries' sel)).symm)
    have hmain := perm_allPairs_filter_map (fun p => decide (condPair p))
      (fun p : SpecEntry × SpecEntry =>
        canonConflict (Conflict.mk p.1.day p.1 p.2))
      (fun a b => decide_eq_decide.mpr (condPair_symm a b))
      (fun a b hcond => by
        have h := of_decide_eq_true hcond
        simpa [canonConflict] using canon_symm h)
      hs
    simpa [findConflicts, List.map_map, Function.comp_def] using hmain

/-- C2 at the spec's worked example, with the entry order reversed in
the second set. -/
theorem c2_unordered_once_perm_witness :
    (findConflicts [eCS101, eMATH201] ["CS101", "MATH201"]).Nodup ∧
    (∀ a b : SpecEntry, a ∈ [eCS101, eMATH201] → b ∈ [eCS101, eMATH201] →
      a.course_code ∈ ["CS101", "MATH201"] → b.course_code ∈ ["CS101", "MATH201"] →
      condPair (a, b) →
      (Conflict.mk a.day a b ∈ findConflicts [eCS101, eMATH201] ["CS101", "MATH201"] ∨
        Conflict.mk b.day b a ∈ findConflicts [eCS101, eMATH201] ["CS101", "MATH201"])) ∧
    (∀ a b : SpecEntry,
      ¬(Conflict.mk a.day a b ∈ findConflicts [eCS101, eMATH201] ["CS101", "MATH201"] ∧
        Conflict.mk b.day b a ∈ findConflicts [eCS101, eMATH201] ["CS101", "MATH201"])) ∧
    List.Perm ((findConflicts [eCS101, eMATH201] ["CS101", "MATH201"]).map canonConflict)
      ((findConflicts [eMATH201, eCS101] ["CS101", "MATH201"]).map canonConflict) :=
  c2_unordered_once_perm [eCS101, eMATH201] [eMATH201, eCS101] ["CS101", "MATH201"]
    (by decide) (by decide)

/-- The entries produced by the normalizer are the per-row successes,
independent of the starting index. -/
theorem normalizeGo_fst (rows : List RawRow) (i : Nat) :
    (normalizeGo i rows).1 = rows.filterMap (fun r => (normalizeRow r).toOption) := by
  induction rows generalizing i with
  | nil => rfl
  | cons r rs ih =>
    simp only [normalizeGo, List.filterMap_cons]
    cases h : normalizeRow r with
    | ok e => simp [h, Except.toOption, ih (i + 1)]
    | error k => simp [h, Except.toOption, ih (i + 1)]

/-- A failing row contributes a warning carrying its absolute index. -/
theorem normalizeGo_warn (rows : List RawRow) (j n : Nat) (hn : n < rows.length) (k : WarnKind)
    (h : normalizeRow (rows.get ⟨n, hn⟩) = Except.error k) :
    (⟨j + n, k⟩ : Warning) ∈ (normalizeGo j rows).2 := by
  induction rows generalizing j n with
  | nil => exact absurd hn (by simp)
  | cons r rs ih =>
    cases n with
    | zero =>
      have hr : normalizeRow r = Except.error k := h
      simp only [normalizeGo, hr]
      simp
    | succ m =>
      have hm : m < rs.length := Nat.lt_of_succ_lt_succ hn
      have hh : normalizeRow (rs.get ⟨m, hm⟩) = Except.error k := h
      have hmem := ih (j + 1) m hm hh
      have harith : j + 1 + m = j + (m + 1) := by omega
      rw [harith] at hmem
      simp only [normalizeGo]
      cases hr : normalizeRow r with
      | ok e =>
        simp only [hr]
        exact hmem
      | error k2 =>
        simp only [hr]
        exact List.mem_cons_of_mem _ hmem

/-- Removing an element on which `f` fails does not change a
`filterMap`. -/
theorem filterMap_eraseIdx_of_none {α β : Type} (l : List α) (f : α → Option β) (n : Nat)
    (hn : n < l.length) (h : f (l.get ⟨n, hn⟩) = none) :
    l.filterMap f = (l.eraseIdx n).filterMap f := by
  induction l generalizing n with
  | nil => simp at hn
  | cons x xs ih =>
    cases n with
    | zero =>
      have hx : f x = none := h
      simp [List.eraseIdx, List.filterMap_cons, hx]
    | succ m =>
      have hm : m < xs.length := Nat.lt_of_succ_lt_succ hn
      have hh : f (xs.get ⟨m, hm⟩) = none := h
      cases hfx : f x with
      | none => simp [List.eraseIdx, List.filterMap_cons, hfx, ih m hm hh]
      | some b => simp [List.eraseIdx, List.filterMap_cons, hfx, ih m hm hh]

/-- Success of the time parser is exactly a pattern match with
increasing endpoints. -/
theorem parseTimeRange_ok_iff (s : String) (p : Nat × Nat) :
    parseTimeRange s = Except.ok p ↔ (hhmmParse s = some p ∧ p.1 < p.2) := by
  unfold parseTimeRange
  rcases hh : hhmmParse s with _ | ⟨a, b⟩
  · simp
  · by_cases hab : a < b
    · simp only [hab, if_true]
      constructor
      · intro h
        injection h with h'
        subst h'
        exact ⟨rfl, hab⟩
      · rintro ⟨h1, h2⟩
        injection h1 with h1'
        subst h1'
        rfl
    · simp only [hab, if_false]
      constructor
      · intro h
        exact absurd h (by simp)
      · rintro ⟨h1, h2⟩
        injection h1 with h1'
        subst h1'
        exact absurd h2 hab

/-- C4: the Time Interval Parser succeeds with the minute pair exactly
when the string matches `HH:MM-HH:MM` (24h) with start before end, and
fails with `MalformedTimeRange` otherwise; a row whose required fields
are present but whose time range fails to parse is skipped by the
normalizer with a warning carrying the row index, and the entries of
the remaining rows are produced unchanged. -/
theorem c4_parser_skip (s : String) (p : Nat × Nat) (rows : List RawRow) (i : Nat)
    (hi : i < rows.length)
    (hc : jsOrD (jsOr (jsOr (rows.get ⟨i, hi⟩).Course (rows.get ⟨i, hi⟩).course)
      (rows.get ⟨i, hi⟩).course_name) "" ≠ "")
    (hd : jsOrD (jsOr (rows.get ⟨i, hi⟩).Day (rows.get ⟨i, hi⟩).day) "" ≠ "")
    (ht : parseTimeRange (jsOrD (jsOr (rows.get ⟨i, hi⟩).Time (rows.get ⟨i, hi⟩).time) "") =
      Except.error TimeError.MalformedTimeRange) :
    (parseTimeRange s = Except.ok p ↔ (hhmmParse s = some p ∧ p.1 < p.2)) ∧
    ((¬∃ q : Nat × Nat, parseTimeRange s = Except.ok q) →
      parseTimeRange s = Except.error TimeError.MalformedTimeRange) ∧
    (⟨i, WarnKind.MalformedTimeRange⟩ : Warning) ∈ (normalize rows).2 ∧
    (normalize rows).1 = (normalize (rows.eraseIdx i)).1 := by
  have hbad : normalizeRow (rows.get ⟨i, hi⟩) = Except.error WarnKind.MalformedTimeRange := by
    unfold normalizeRow
    rw [if_neg ?_]
    · rw [ht]
    · rintro (h | h)
      · exact hc h
      · exact hd h
  refine ⟨parseTimeRange_ok_iff s p, ?_, ?_, ?_⟩
  · intro h
    cases hpt : parseTimeRange s with
    | ok q => exact absurd ⟨q, hpt⟩ h
    | error e => cases e; rfl
  · have hw := normalizeGo_warn rows 0 i hi WarnKind.MalformedTimeRange hbad
    simpa [normalize] using hw
  · have hnone : (normalizeRow (rows.get ⟨i, hi⟩)).toOption = none := by
      rw [hbad]
      rfl
    unfold normalize
    rw [normalizeGo_fst rows 0, normalizeGo_fst (rows.eraseIdx i) 0]
    exact filterMap_eraseIdx_of_none rows _ i hi hnone

/-- C4 at the spec's malformed-row example: the middle row carries the
time string `9-10:30`; the parser rejects it, the row is skipped with a
warning at index 1, and the surrounding rows still normalize. -/
theorem c4_parser_skip_witness :
    ((parseTimeRange "09:00-10:30" = Except.ok (540, 630) ↔
      (hhmmParse "09:00-10:30" = some (540, 630) ∧ (540, 630).1 < (540, 630).2)) ∧
    ((¬∃ q : Nat × Nat, parseTimeRange "09:00-10:30" = Except.ok q) →
      parseTimeRange "09:00-10:30" = Except.error TimeError.MalformedTimeRange) ∧
    (⟨1, WarnKind.MalformedTimeRange⟩ : Warning) ∈
      (normalize [rowGood, rowBad, rowGood2]).2 ∧
    (normalize [rowGood, rowBad, rowGood2]).1 =
      (normalize ([rowGood, rowBad, rowGood2].eraseIdx 1)).1) :=
  c4_parser_skip "09:00-10:30" (540, 630) [rowGood, rowBad, rowGood2] 1
    (by decide) (by decide) (by decide) rfl

/-- The base candidate list of `altsFor` is empty when the side's
course has no other section in the set. -/
theorem altsFor_eq_nil (side : SpecEntry) (allE : List SpecEntry) (sel : List String)
    (h : ∀ e ∈ allE, e.course_code = side.course_code → e.«section» = side.«section») :
    altsFor side allE sel = [] := by
  unfold altsFor
  have hbase : allE.filter (fun e =>
      decide (e.course_code = side.course_code) && decide (e.«section» ≠ side.«section»)) = [] := by
    rw [List.filter_eq_nil_iff]
    intro e he
    simp only [Bool.and_eq_true, decide_eq_true_eq, not_and]
    intro hcode
    simp only [decide_eq_true_eq, Decidable.not_not]
    exact h e he hcode
  rw [hbase]
  rfl

/-- C8: the Recommendation Generator always returns a Recommendation
record for the given conflict — a missing alternative is a
negative finding, not an error — and when each conflicting course has
only the section that appears in the conflict, the alternative list is
empty. -/
theorem c8_recommendation_total (c : Conflict) (allE : List SpecEntry) (sel : List String)
    (h1 : ∀ e ∈ allE, e.course_code = c.entry_a.course_code → e.«section» = c.entry_a.«section»)
    (h2 : ∀ e ∈ allE, e.course_code = c.entry_b.course_code → e.«section» = c.entry_b.«section») :
    (recommend c allE sel).conflict = c ∧
    (recommend c allE sel).alternative_sections = [] := by
  refine ⟨rfl, ?_⟩
  show altsFor c.entry_a allE sel ++ altsFor c.entry_b allE sel = []
  rw [altsFor_eq_nil c.entry_a allE sel h1, altsFor_eq_nil c.entry_b allE sel h2]
  rfl

/-- C8 at a concrete conflict whose two courses each have a single
section in the timetable set. -/
theorem c8_recommendation_total_witness :
    (recommend (Conflict.mk "Mon" eCS101 eMATH201) [eCS101, eMATH201]
        ["CS101", "MATH201"]).conflict = Conflict.mk "Mon" eCS101 eMATH201 ∧
    (recommend (Conflict.mk "Mon" eCS101 eMATH201) [eCS101, eMATH201]
        ["CS101", "MATH201"]).alternative_sections = [] :=
  c8_recommendation_total (Conflict.mk "Mon" eCS101 eMATH201) [eCS101, eMATH201]
    ["CS101", "MATH201"] (by decide) (by decide)

/-- C3 counterexample: with a loaded entry and all filter criteria
empty, the view filter returns the unfiltered input (which is not the
empty sequence), and the conflict checker with an empty course
selection sets an error message. -/
theorem c3_counterexample :
    applyFiltersList [e0] emptyFilters = [e0] ∧
    ([e0] : List TimetableEntry) ≠ [] ∧
    s3.selectedCourses = [] ∧
    (checkConflictsState (fun _ _ => []) s3).error =
      some "Please select courses to check for conflicts" := by
  refine ⟨by decide, by decide, rfl, by decide⟩

/-- C3 corrected: the modelled backend Schedule Filter itself does
return an empty sequence for an empty selection, but the frontend code
does not share these semantics: its view filter with empty criteria
returns the unfiltered input set (show-all semantics), and its
conflict checker treats an empty course selection as an error — it
records the error message and computes nothing, leaving the conflict
list and the timetable set untouched. -/
theorem c3_empty_selection (data : List TimetableEntry) (specData : List SpecEntry)
    (backend : List TimetableEntry → List String → List ConflictInfo)
    (st : ManagerState) (hs : st.selectedCourses = []) :
    scheduleFilter specData [] [] = [] ∧
    applyFiltersList data emptyFilters = data ∧
    (checkConflictsState backend st).error =
      some "Please select courses to check for conflicts" ∧
    (checkConflictsState backend st).conflicts = st.conflicts ∧
    (checkConflictsState backend st).timetableData = st.timetableData := by
  refine ⟨?_, ?_, ?_, ?_, ?_⟩
  · simp [scheduleFilter]
  · simp [applyFiltersList, emptyFilters]
  · simp [checkConflictsState, hs]
  · simp [checkConflictsState, hs]
  · simp [checkConflictsState, hs]

/-- C3 corrected, at a concrete state with an empty selection. -/
theorem c3_empty_selection_witness :
    scheduleFilter [eCS101] [] [] = [] ∧
    applyFiltersList [e0] emptyFilters = [e0] ∧
    (checkConflictsState (fun _ _ => []) s3).error =
      some "Please select courses to check for conflicts" ∧
    (checkConflictsState (fun _ _ => []) s3).conflicts = s3.conflicts ∧
    (checkConflictsState (fun _ _ => []) s3).timetableData = s3.timetableData :=
  c3_empty_selection [e0] [eCS101] (fun _ _ => []) s3 rfl

/-- C5 counterexample: a raw row with every key absent has empty
required fields, yet the frontend conversion still produces exactly
one TimetableEntry carrying empty strings — the row is not skipped and
no warning exists. -/
theorem c5_counterexample :
    loadEntries [emptyRawRow] = [convertEntry 0 emptyRawRow] ∧
    (loadEntries [emptyRawRow]).length = 1 ∧
    (convertEntry 0 emptyRawRow).course = "" ∧
    (convertEntry 0 emptyRawRow).day = "" := by
  refine ⟨by decide, by decide, by decide, by decide⟩

/-- C5 corrected: the frontend conversion never skips a row and has no
warning channel — every raw row yields exactly one TimetableEntry, and
empty required fields are carried through as empty strings. -/
theorem c5_no_skip (rows : List RawRow) (r : RawRow) (i : Nat)
    (hc : jsTruthy (jsOr (jsOr r.Course r.course) r.course_name) = false)
    (hd : jsTruthy (jsOr r.Day r.day) = false) :
    (loadEntries rows).length = rows.length ∧
    (convertEntry i r).course = "" ∧
    (convertEntry i r).day = "" := by
  refine ⟨?_, ?_, ?_⟩
  · simp [loadEntries]
  · simp [convertEntry, jsOrD, hc]
  · simp [convertEntry, jsOrD, hd]

/-- C5 corrected, at the all-empty row. -/
theorem c5_no_skip_witness :
    (loadEntries [emptyRawRow]).length = [emptyRawRow].length ∧
    (convertEntry 0 emptyRawRow).course = "" ∧
    (convertEntry 0 emptyRawRow).day = "" :=
  c5_no_skip [emptyRawRow] emptyRawRow 0 (by decide) (by decide)

/-- C6: a row whose aliases Course/course/course_name all carry the
same value and which has no separate course_code key converts to
exactly one entry — not one per alias — whose course and course_code
fields are that value. -/
theorem c6_alias_one_entry (r : RawRow) (v : String) (i : Nat)
    (hC : r.Course = some v) (hc : r.course = some v) (hn : r.course_name = some v)
    (hcc : r.course_code = none) :
    loadEntries [r] = [convertEntry 0 r] ∧
    (convertEntry i r).course = v ∧
    (convertEntry i r).course_code = some v ∧
    (convertEntry i r).course_name = some v := by
  refine ⟨rfl, ?_, ?_, ?_⟩
  · by_cases hv : v = ""
    · simp [convertEntry, jsOr, jsOrD, jsTruthy, hC, hc, hn, hv]
    · simp [convertEntry, jsOr, jsOrD, jsTruthy, hC, hc, hn, hv]
  · by_cases hv : v = ""
    · simp [convertEntry, jsOr, jsOrD, jsTruthy, hC, hc, hn, hcc, hv]
    · simp [convertEntry, jsOr, jsOrD, jsTruthy, hC, hc, hn, hcc, hv]
  · by_cases hv : v = ""
    · simp [convertEntry, jsOr, jsOrD, jsTruthy, hC, hc, hn, hv]
    · simp [convertEntry, jsOr, jsOrD, jsTruthy, hC, hc, hn, hv]

/-- C6 at a concrete row with all three aliases set to CS101. -/
theorem c6_alias_one_entry_witness :
    loadEntries [rowAliases] = [convertEntry 0 rowAliases] ∧
    (convertEntry 0 rowAliases).course = "CS101" ∧
    (convertEntry 0 rowAliases).course_code = some "CS101" ∧
    (convertEntry 0 rowAliases).course_name = some "CS101" :=
  c6_alias_one_entry rowAliases "CS101" 0 rfl rfl rfl rfl

/-- C7 counterexample: converting a row with no type, room or
instructor information defaults type to Theory and room to the empty
string, but the instructor field is left unset (`none`), not
normalized to the empty string as claimed. -/
theorem c7_counterexample :
    (convertEntry 0 rowGood).type = "Theory" ∧
    (convertEntry 0 rowGood).room = "" ∧
    (convertEntry 0 rowGood).instructor = none ∧
    (convertEntry 0 rowGood).instructor ≠ some "" := by
  refine ⟨by decide, by decide, rfl, by decide⟩

/-- C7 corrected: a row with no truthy Type/type value converts with
type defaulted to "Theory", a row with no truthy Class/room/location
value converts with an empty room string, no row is rejected (one
entry per row), and the instructor field is always left unset rather
than set to the empty string. -/
theorem c7_defaults (r : RawRow) (i : Nat) (rows : List RawRow)
    (ht : jsTruthy (jsOr r.«Type» r.type) = false)
    (hr : jsTruthy (jsOr (jsOr r.«Class» r.room) r.location) = false) :
    (convertEntry i r).type = "Theory" ∧
    (convertEntry i r).room = "" ∧
    (convertEntry i r).instructor = none ∧
    (loadEntries rows).length = rows.length := by
  refine ⟨?_, ?_, rfl, ?_⟩
  · simp [convertEntry, jsOrD, ht]
  · simp [convertEntry, jsOrD, hr]
  · simp [loadEntries]

/-- C7 corrected, at a row carrying only course, day and time keys. -/
theorem c7_defaults_witness :
    (convertEntry 0 rowGood).type = "Theory" ∧
    (convertEntry 0 rowGood).room = "" ∧
    (convertEntry 0 rowGood).instructor = none ∧
    (loadEntries [rowGood]).length = [rowGood].length :=
  c7_defaults rowGood 0 [rowGood] (by decide) (by decide)

/-- C9: the embedded operations leave the timetable set unchanged: the
view filter writes only `filteredData` and is idempotent, and the
conflict check — for every pure backend function — preserves the
timetable set and the selection, so a repeated check recomputes the
same conflicts from the same unmodified input. -/
theorem c9_frame (st : ManagerState)
    (backend : List TimetableEntry → List String → List ConflictInfo) :
    (applyFiltersState st).timetableData = st.timetableData ∧
    applyFiltersState (applyFiltersState st) = applyFiltersState st ∧
    (checkConflictsState backend st).timetableData = st.timetableData ∧
    (checkConflictsState backend st).selectedCourses = st.selectedCourses ∧
    (checkConflictsState backend (checkConflictsState backend st)).conflicts =
      (checkConflictsState backend st).conflicts := by
  refine ⟨rfl, rfl, ?_, ?_, ?_⟩
  · unfold checkConflictsState
    split
    · rfl
    · rfl
  · unfold checkConflictsState
    split
    · rfl
    · rfl
  · by_cases hguard : (st.currentTimetableId.isNone || st.selectedCourses.isEmpty) = true
    · simp [checkConflictsState, hguard]
    · simp [checkConflictsState, hguard]

/-- `dedupKeepFirst` preserves membership. -/
theorem dedupKeepFirst_mem (v : String) (l : List String) :
    v ∈ dedupKeepFirst l ↔ v ∈ l := by
  induction l using dedupKeepFirst.induct with
  | case1 => simp [dedupKeepFirst]
  | case2 x xs ih =>
    rw [dedupKeepFirst]
    simp only [List.mem_cons, ih, List.mem_filter, decide_eq_true_eq]
    constructor
    · rintro (rfl | ⟨h1, h2⟩)
      · exact Or.inl rfl
      · exact Or.inr h1
    · rintro (rfl | h1)
      · exact Or.inl rfl
      · by_cases hvx : v = x
        · exact Or.inl hvx
        · exact Or.inr ⟨h1, hvx⟩

/-- `dedupKeepFirst` produces a duplicate-free list. -/
theorem dedupKeepFirst_nodup (l : List String) : (dedupKeepFirst l).Nodup := by
  induction l using dedupKeepFirst.induct with
  | case1 => simp [dedupKeepFirst]
  | case2 x xs ih =>
    rw [dedupKeepFirst]
    refine List.nodup_cons.mpr ⟨?_, ih⟩
    intro hx
    have := (dedupKeepFirst_mem x _).mp hx
    rcases List.mem_filter.mp this with ⟨-, h⟩
    exact (of_decide_eq_true h) rfl

/-- The JavaScript-Set fold equals first-occurrence deduplication of
the not-yet-seen values, for any accumulator of already-seen values. -/
theorem foldl_insertNew_eq (l : List String) (acc : List String) :
    l.foldl insertNew acc = acc ++ dedupKeepFirst (l.filter (fun y => decide (y ∉ acc))) := by
  induction l generalizing acc with
  | nil => simp [dedupKeepFirst]
  | cons x xs ih =>
    by_cases hx : x ∈ acc
    · have h1 : insertNew acc x = acc := by simp [insertNew, hx]
      have h2 : (x :: xs).filter (fun y => decide (y ∉ acc)) =
          xs.filter (fun y => decide (y ∉ acc)) := by
        simp [List.filter_cons, hx]
      rw [List.foldl_cons, h1, h2, ih acc]
    · have h1 : insertNew acc x = acc ++ [x] := by simp [insertNew, hx]
      have h2 : (x :: xs).filter (fun y => decide (y ∉ acc)) =
          x :: xs.filter (fun y => decide (y ∉ acc)) := by
        simp [List.filter_cons, hx]
      have h3 : ∀ y, (decide (y ∉ acc ++ [x]) : Bool) =
          (decide (y ≠ x) && decide (y ∉ acc)) := by
        intro y
        by_cases hy1 : y ∈ acc
        · simp [List.mem_append, hy1]
        · by_cases hy2 : y = x
          · simp [List.mem_append, hy1, hy2]
          · simp [List.mem_append, hy1, hy2]
      rw [List.foldl_cons, h1, ih (acc ++ [x]), h2, dedupKeepFirst, List.append_assoc,
        List.singleton_append]
      congr 3
      rw [List.filter_filter]
      exact List.filter_congr (fun y hy => h3 y)

/-- The JavaScript-Set list is exactly first-occurrence
deduplication. -/
theorem jsSetList_eq (l : List String) : jsSetList l = dedupKeepFirst l := by
  unfold jsSetList
  rw [foldl_insertNew_eq l []]
  simp only [List.nil_append]
  congr 1
  refine List.filter_eq_self.mpr ?_
  intro a ha
  simp

/-- First-occurrence deduplication commutes with filtering by a
value-level predicate. -/
theorem dedupKeepFirst_filter (p : String → Bool) (l : List String) :
    (dedupKeepFirst l).filter p = dedupKeepFirst (l.filter p) := by
  induction l using dedupKeepFirst.induct with
  | case1 => simp [dedupKeepFirst]
  | case2 x xs ih =>
    rw [dedupKeepFirst]
    by_cases hp : p x = true
    · have e1 : (x :: dedupKeepFirst (xs.filter (fun y => decide (y ≠ x)))).filter p =
          x :: (dedupKeepFirst (xs.filter (fun y => decide (y ≠ x)))).filter p := by
        simp [List.filter_cons, hp]
      have e2 : (x :: xs).filter p = x :: xs.filter p := by
        simp [List.filter_cons, hp]
      rw [e1, e2, dedupKeepFirst, ih]
      congr 2
      rw [List.filter_filter, List.filter_filter]
      exact List.filter_congr (fun y hy => by rw [Bool.and_comm])
    · rw [Bool.not_eq_true] at hp
      have e1 : (x :: dedupKeepFirst (xs.filter (fun y => decide (y ≠ x)))).filter p =
          (dedupKeepFirst (xs.filter (fun y => decide (y ≠ x)))).filter p := by
        simp [List.filter_cons, hp]
      have e2 : (x :: xs).filter p = xs.filter p := by
        simp [List.filter_cons, hp]
      rw [e1, e2, ih]
      congr 1
      rw [List.filter_filter]
      refine List.filter_congr ?_
      intro y hy
      by_cases hyx : y = x
      · subst hyx
        simp [hp]
      · simp [hyx]

/-- C10: after a load, `availableCourses` is exactly the distinct
non-empty course values of the loaded entries in order of first
occurrence — the source computes dedup-then-drop-empties, which equals
drop-empties-then-dedup — it is duplicate-free, an entry with an empty
course value never contributes, and the uniqueCourses statistic equals
its length. -/
theorem c10_available_courses (entries : List TimetableEntry) :
    availableCoursesOf entries =
      dedupKeepFirst ((entries.map (fun e => e.course)).filter (fun v => decide (v ≠ ""))) ∧
    (availableCoursesOf entries).Nodup ∧
    (∀ v : String, v ∈ availableCoursesOf entries ↔
      (v ≠ "" ∧ v ∈ entries.map (fun e => e.course))) ∧
    "" ∉ availableCoursesOf entries ∧
    (statsOf entries).uniqueCourses = (availableCoursesOf entries).length := by
  have h1 : availableCoursesOf entries =
      dedupKeepFirst ((entries.map (fun e => e.course)).filter (fun v => decide (v ≠ ""))) := by
    unfold availableCoursesOf
    rw [jsSetList_eq, dedupKeepFirst_filter]
  have hmem : ∀ v : String, v ∈ availableCoursesOf entries ↔
      (v ≠ "" ∧ v ∈ entries.map (fun e => e.course)) := by
    intro v
    rw [h1, dedupKeepFirst_mem, List.mem_filter]
    simp only [decide_eq_true_eq]
    constructor
    · rintro ⟨hv1, hv2⟩
      exact ⟨hv2, hv1⟩
    · rintro ⟨hv1, hv2⟩
      exact ⟨hv2, hv1⟩
  refine ⟨h1, ?_, hmem, ?_, rfl⟩
  · rw [h1]
    exact dedupKeepFirst_nodup _
  · intro h
    exact ((hmem "").mp h).1 rfl

end EdFast
